import Mathlib

/-!
Shallow embedding of `generate_exec_emails.py`, a five-stage batch pipeline
that loads (Name, Title, Company) rows from a spreadsheet, keeps senior
executives, splits names, infers an email domain from the company name and
emits two candidate email addresses per row.

Strings are modelled as Lean `String`s (lists of characters).  Python's
`str.lower`/`str.strip` are modelled at the ASCII level (`Char.toLower`
lowercases exactly `A`–`Z`), which is faithful on the ASCII data all the
claims are about.  A missing spreadsheet cell (pandas `NaN`) is modelled as
`none`; the file itself is modelled as an association list from column name
to the list of cells of that column, wrapped in `Option` (`none` = the file
is missing or unreadable).
-/

/-- ASCII model of the whitespace set stripped by Python `str.strip()`:
space, tab, newline, carriage return, vertical tab, form feed. -/
def pySpace (c : Char) : Bool :=
  c == ' ' || c == '\t' || c == '\n' || c == '\r' || c == Char.ofNat 11 || c == Char.ofNat 12

/-- Python `s.strip()`: drop leading and trailing whitespace. -/
def pyStrip (s : String) : String :=
  String.mk (((s.data.dropWhile pySpace).reverse.dropWhile pySpace).reverse)

/-- Python `s.lower()` (ASCII model): lowercase every character. -/
def pyLower (s : String) : String :=
  String.mk (s.data.map Char.toLower)

/-- Does the second list start with the first one? -/
def leadMatch : List Char → List Char → Bool
  | [], _ => true
  | _ :: _, [] => false
  | a :: as, b :: bs => a == b && leadMatch as bs

/-- Does the second list contain the first as a contiguous run?  Models the
Python substring test `needle in hay`. -/
def containsSub (needle : List Char) : List Char → Bool
  | [] => leadMatch needle []
  | b :: bs => leadMatch needle (b :: bs) || containsSub needle bs

/-- Python `needle in hay` on strings. -/
def pyContains (needle hay : String) : Bool :=
  containsSub needle.data hay.data

/-- One spreadsheet row restricted to the three relevant columns; a missing
cell (pandas `NaN`) is `none`. -/
structure RawRow where
  name : Option String
  title : Option String
  company : Option String
  deriving DecidableEq

/-- A loaded record: all three required fields present. -/
structure Person where
  Name : String
  Title : String
  Company : String
  deriving DecidableEq

/-- A record after the name-splitting stage. -/
structure SplitPerson extends Person where
  FirstName : String
  LastName : String
  deriving DecidableEq

/-- A record after the domain-inference stage. -/
structure DomPerson extends SplitPerson where
  Domain : String
  deriving DecidableEq

/-- A record after the email-generation stage. -/
structure EmailPerson extends DomPerson where
  Email_1 : String
  Email_2 : String
  deriving DecidableEq

/-- A row of the written output file, after the final column projection. -/
structure OutRow where
  FirstName : String
  LastName : String
  Title : String
  Company : String
  Email_1 : String
  Email_2 : String
  deriving DecidableEq

/-- STEP 1 (`load_data`), row part: a row loads to a record exactly when its
three cells are all present. -/
def load_row (r : RawRow) : Option Person :=
  match r.name, r.title, r.company with
  | some n, some t, some c => some ⟨n, t, c⟩
  | _, _, _ => none

/-- STEP 1 (`load_data`): `df[["Name", "Title", "Company"]].dropna()` keeps
exactly the rows whose three cells are all present. -/
def load_data (rows : List RawRow) : List Person :=
  rows.filterMap load_row

/-- The fixed keyword list of `filter_senior_execs`. -/
def senior_keywords : List String :=
  ["chief", "ceo", "cmo", "cto", "cfo", "coo",
   "president", "founder", "co-founder", "evp", "svp"]

/-- The per-row senior test: `any(keyword in title for keyword in senior_keywords)`
applied to the lowercased title. -/
def is_senior (title : String) : Bool :=
  senior_keywords.any fun k => pyContains k (pyLower title)

/-- STEP 2 (`filter_senior_execs`): keep the rows whose lowercased title
contains some keyword; the temporary `is_senior` column is dropped again, so
the net effect is an order-preserving filter. -/
def filter_senior_execs (l : List Person) : List Person :=
  l.filter fun p => is_senior p.Title

/-- Split a character list at its first space (U+0020), as pandas
`str.split(" ", n=1)` does; `none` when there is no space. -/
def breakAtSpace : List Char → Option (List Char × List Char)
  | [] => none
  | c :: rest =>
    if c = ' ' then some ([], rest)
    else
      match breakAtSpace rest with
      | none => none
      | some (a, b) => some (c :: a, b)

/-- STEP 3 (`split_names`), row part: strip the name and split it at the
first space into `FirstName`/`LastName`; `none` when there is no space, in
which case the row has no `LastName` and is dropped by
`dropna(subset=["LastName"])`. -/
def split_row (p : Person) : Option SplitPerson :=
  (breakAtSpace (pyStrip p.Name).data).map fun q =>
    { toPerson := p, FirstName := String.mk q.1, LastName := String.mk q.2 }

/-- STEP 3 (`split_names`), batch part: `str.split(" ", n=1, expand=True)`
produces a column `1` only when at least one stripped name in the batch
actually splits into two pieces; when none does — in particular on an empty
batch, which yields a frame without even column `0` — the access
`name_split[1]` (resp. `name_split[0]`) raises an unhandled `KeyError` and
the run dies.  `none` models that crash; otherwise each row is split at its
first space and the rows without one are dropped. -/
def split_names (l : List Person) : Option (List SplitPerson) :=
  if l.any fun p => (breakAtSpace (pyStrip p.Name).data).isSome then
    some (l.filterMap split_row)
  else
    none

/-- STEP 4 (`infer_domain`): delete every character outside `[a-zA-Z0-9 ]`
(the `re.sub`), lowercase, delete every space (`.replace(" ", "")`) and
append `".com"`. -/
def infer_domain (company : String) : String :=
  let cleaned := company.data.filter fun c => c.isAlphanum || c == ' '
  let domain := (cleaned.map Char.toLower).filter fun c => c != ' '
  String.mk domain ++ ".com"

/-- STEP 4 (`add_domains`): add the inferred domain to every row. -/
def add_domains (l : List SplitPerson) : List DomPerson :=
  l.map fun s => { toSplitPerson := s, Domain := infer_domain s.Company }

/-- STEP 5, row part: the two candidate addresses built from the lowercased
name parts and the domain. -/
def gen_emails_row (d : DomPerson) : EmailPerson :=
  { toDomPerson := d
    Email_1 := pyLower d.FirstName ++ "." ++ pyLower d.LastName ++ "@" ++ d.Domain
    Email_2 := pyLower d.FirstName ++ "@" ++ d.Domain }

/-- STEP 5 (`generate_emails`): add both email columns to every row. -/
def generate_emails (l : List DomPerson) : List EmailPerson :=
  l.map gen_emails_row

/-- The configured output cap. -/
def MAX_EXECUTIVES : Nat := 50

/-- The final column selection
`df[["FirstName", "LastName", "Title", "Company", "Email_1", "Email_2"]]`. -/
def project_row (e : EmailPerson) : OutRow :=
  ⟨e.FirstName, e.LastName, e.Title, e.Company, e.Email_1, e.Email_2⟩

/-- Stages 2-5 composed, before projection and truncation; `none` when the
name splitter crashes. -/
def pipeline_records (l : List Person) : Option (List EmailPerson) :=
  (split_names (filter_senior_execs l)).map fun srows =>
    generate_emails (add_domains srows)

/-- STEP 6 (`main`), after loading: project to the output columns and keep
the first `MAX_EXECUTIVES` rows (`.head(MAX_EXECUTIVES)`); `none` when the
pipeline crashed before reaching the write. -/
def run_pipeline (l : List Person) : Option (List OutRow) :=
  (pipeline_records l).map fun recs => (recs.map project_row).take MAX_EXECUTIVES

/-- The fatal error classes of a run: the two named by the error taxonomy,
plus the unhandled `KeyError` that `name_split[1]` (or `name_split[0]` on an
empty frame) raises in the name splitter when no stripped name in the batch
contains a space. -/
inductive RunError where
  | FileError
  | FormatError
  | SplitError
  deriving DecidableEq

deriving instance DecidableEq for Except

/-- Look a column up by name in a sheet (an association list from column
name to cell list). -/
def getCol (sheet : List (String × List (Option String))) (colName : String) :
    Option (List (Option String)) :=
  (sheet.find? fun p => p.1 == colName).map fun p => p.2

/-- Zip the three selected columns back into rows. -/
def zipRows : List (Option String) → List (Option String) → List (Option String) → List RawRow
  | n :: ns, t :: ts, c :: cs => ⟨n, t, c⟩ :: zipRows ns ts cs
  | _, _, _ => []

/-- The whole run of `main`: `pd.read_excel` fails on a missing or unreadable
file (`input = none`); the column selection `df[["Name", "Title", "Company"]]`
fails when a required column is absent; the name splitter fails with a
`KeyError` when no surviving stripped name contains a space; only a fully
successful run produces an output value (the file written by `to_csv`, which
is the last step). -/
def main_run (input : Option (List (String × List (Option String)))) :
    Except RunError (List OutRow) :=
  match input with
  | none => .error .FileError
  | some sheet =>
    match getCol sheet "Name", getCol sheet "Title", getCol sheet "Company" with
    | some ns, some ts, some cs =>
      match run_pipeline (load_data (zipRows ns ts cs)) with
      | some out => .ok out
      | none => .error .SplitError
    | _, _, _ => .error .FormatError

/-- Does a raw row have all three required cells? -/
def complete_row (rr : RawRow) : Bool :=
  rr.name.isSome && rr.title.isSome && rr.company.isSome

/-! ### Supporting lemmas -/

/-- Does the string contain an ASCII uppercase letter? -/
def hasUpper (s : String) : Bool :=
  s.data.any Char.isUpper

theorem isUpper_iff (c : Char) : c.isUpper = true ↔ 65 ≤ c.toNat ∧ c.toNat ≤ 90 := by
  simp only [Char.isUpper, Bool.and_eq_true, decide_eq_true_eq, ge_iff_le]
  exact ⟨fun h => ⟨h.1, h.2⟩, fun h => ⟨h.1, h.2⟩⟩

theorem isLower_iff (c : Char) : c.isLower = true ↔ 97 ≤ c.toNat ∧ c.toNat ≤ 122 := by
  simp only [Char.isLower, Bool.and_eq_true, decide_eq_true_eq, ge_iff_le]
  exact ⟨fun h => ⟨h.1, h.2⟩, fun h => ⟨h.1, h.2⟩⟩

theorem isDigit_iff (c : Char) : c.isDigit = true ↔ 48 ≤ c.toNat ∧ c.toNat ≤ 57 := by
  simp only [Char.isDigit, Bool.and_eq_true, decide_eq_true_eq, ge_iff_le]
  exact ⟨fun h => ⟨h.1, h.2⟩, fun h => ⟨h.1, h.2⟩⟩

theorem char_le_iff (a b : Char) : a ≤ b ↔ a.toNat ≤ b.toNat := Iff.rfl

theorem toNat_ofNatAux (n : Nat) (h : n.isValidChar) : (Char.ofNatAux n h).toNat = n := rfl

theorem toNat_ofNat_valid {n : Nat} (h : n.isValidChar) : (Char.ofNat n).toNat = n := by
  rw [Char.ofNat, dif_pos h]
  exact toNat_ofNatAux n h

theorem isUpper_toLower (c : Char) : c.toLower.isUpper = false := by
  rw [Char.toLower]
  by_cases h : c.toNat ≥ 65 ∧ c.toNat ≤ 90
  · rw [if_pos h]
    have hv : (c.toNat + 32).isValidChar := Or.inl (by omega)
    have hn : (Char.ofNat (c.toNat + 32)).toNat = c.toNat + 32 := toNat_ofNat_valid hv
    rw [Bool.eq_false_iff]
    intro hu
    rw [isUpper_iff] at hu
    omega
  · rw [if_neg h]
    rw [Bool.eq_false_iff]
    intro hu
    rw [isUpper_iff] at hu
    omega

theorem keep_char_eq (ch : Char) :
    (ch.isAlphanum || ch == ' ') =
    (('a' ≤ ch && ch ≤ 'z') || ('A' ≤ ch && ch ≤ 'Z') || ('0' ≤ ch && ch ≤ '9') || ch == ' ') := by
  rw [Bool.eq_iff_iff]
  have h1 : 'a'.toNat = 97 := rfl
  have h2 : 'z'.toNat = 122 := rfl
  have h3 : 'A'.toNat = 65 := rfl
  have h4 : 'Z'.toNat = 90 := rfl
  have h5 : '0'.toNat = 48 := rfl
  have h6 : '9'.toNat = 57 := rfl
  simp only [Bool.or_eq_true, Char.isAlphanum, Char.isAlpha, isUpper_iff, isLower_iff, isDigit_iff,
    Bool.and_eq_true, decide_eq_true_eq, char_le_iff, h1, h2, h3, h4, h5, h6]
  tauto

theorem leadMatch_iff (n : List Char) : ∀ h : List Char, leadMatch n h = true ↔ ∃ t, h = n ++ t := by
  induction n with
  | nil => intro h; simp [leadMatch]
  | cons a as ih =>
    intro h
    cases h with
    | nil => simp [leadMatch]
    | cons b bs =>
      simp only [leadMatch, Bool.and_eq_true, beq_iff_eq, ih, List.cons_append, List.cons.injEq]
      constructor
      · rintro ⟨rfl, t, rfl⟩; exact ⟨t, rfl, rfl⟩
      · rintro ⟨t, rfl, rfl⟩; exact ⟨rfl, t, rfl⟩

theorem containsSub_iff (n : List Char) : ∀ h : List Char,
    containsSub n h = true ↔ ∃ s t, h = s ++ n ++ t := by
  intro h
  induction h with
  | nil =>
    simp only [containsSub, leadMatch_iff]
    constructor
    · rintro ⟨t, ht⟩; exact ⟨[], t, by simpa using ht⟩
    · rintro ⟨s, t, ht⟩
      have hst : n = [] ∧ t = [] ∧ s = [] := by
        rcases List.append_eq_nil.mp ht.symm with ⟨h1, h2⟩
        rcases List.append_eq_nil.mp h1 with ⟨h3, h4⟩
        exact ⟨h4, h2, h3⟩
      exact ⟨t, by simp [hst.1, hst.2.1]⟩
  | cons b bs ih =>
    simp only [containsSub, Bool.or_eq_true, leadMatch_iff, ih]
    constructor
    · rintro (⟨t, ht⟩ | ⟨s, t, ht⟩)
      · exact ⟨[], t, by simpa using ht⟩
      · exact ⟨b :: s, t, by simp [ht]⟩
    · rintro ⟨s, t, ht⟩
      cases s with
      | nil => exact Or.inl ⟨t, by simpa using ht⟩
      | cons x xs =>
        right
        have h2 : bs = xs ++ n ++ t := by
          simp only [List.cons_append, List.cons.injEq] at ht
          exact ht.2
        exact ⟨xs, t, h2⟩

theorem breakAtSpace_eq_none (l : List Char) : breakAtSpace l = none ↔ ' ' ∉ l := by
  induction l with
  | nil => simp [breakAtSpace]
  | cons c rest ih =>
    by_cases hc : c = ' '
    · subst hc; simp [breakAtSpace]
    · simp only [breakAtSpace, if_neg hc, List.mem_cons]
      cases hb : breakAtSpace rest with
      | none => simp only [hb, true_iff] at ih ⊢; tauto
      | some q => simp only [hb, false_iff] at ih ⊢; tauto

theorem breakAtSpace_split (f rest : List Char) (hf : ' ' ∉ f) :
    breakAtSpace (f ++ ' ' :: rest) = some (f, rest) := by
  induction f with
  | nil => simp [breakAtSpace]
  | cons c cs ih =>
    have hc : c ≠ ' ' := fun h => hf (h ▸ List.mem_cons_self c cs)
    have hcs : ' ' ∉ cs := fun h => hf (List.mem_cons_of_mem c h)
    simp only [List.cons_append, breakAtSpace, if_neg hc, List.append_eq, ih hcs]

theorem hasUpper_pyLower (s : String) : hasUpper (pyLower s) = false := by
  simp only [hasUpper, pyLower, List.any_eq_false]
  intro c hc
  rcases List.mem_map.mp hc with ⟨a, _, rfl⟩
  simp [isUpper_toLower]

theorem hasUpper_append (a b : String) : hasUpper (a ++ b) = (hasUpper a || hasUpper b) := by
  simp [hasUpper, String.data_append]

theorem hasUpper_infer_domain (c : String) : hasUpper (infer_domain c) = false := by
  simp only [infer_domain, hasUpper, String.data_append, List.any_append, List.any_eq_false,
    Bool.or_eq_false_iff]
  constructor
  · intro x hx
    rcases List.mem_filter.mp hx with ⟨hx1, _⟩
    rcases List.mem_map.mp hx1 with ⟨a, _, rfl⟩
    simp [isUpper_toLower]
  · decide

theorem load_row_eq_some (rr : RawRow) (p : Person) :
    load_row rr = some p ↔
      rr.name = some p.Name ∧ rr.title = some p.Title ∧ rr.company = some p.Company := by
  rcases rr with ⟨n, t, c⟩
  rcases p with ⟨pn, pt, pc⟩
  rcases n with _ | n <;> rcases t with _ | t <;> rcases c with _ | c <;>
    simp [load_row, Person.mk.injEq]

theorem split_any_eq_false (l : List Person) :
    ((l.any fun p => (breakAtSpace (pyStrip p.Name).data).isSome) = false) ↔
      ∀ p ∈ l, ' ' ∉ (pyStrip p.Name).data := by
  rw [List.any_eq_false]
  constructor
  · intro h p hp
    have hns := h p hp
    have hnone : breakAtSpace (pyStrip p.Name).data = none := by
      cases hb : breakAtSpace (pyStrip p.Name).data with
      | none => rfl
      | some q => exact absurd (by simp [hb]) hns
    exact (breakAtSpace_eq_none _).mp hnone
  · intro h p hp
    have hnone := (breakAtSpace_eq_none _).mpr (h p hp)
    simp [hnone]

theorem split_names_sound {L : List Person} {srows : List SplitPerson}
    (h : split_names L = some srows) : srows = L.filterMap split_row := by
  rw [split_names] at h
  by_cases hb : (L.any fun p => (breakAtSpace (pyStrip p.Name).data).isSome) = true
  · rw [if_pos hb] at h
    exact (Option.some.inj h).symm
  · rw [if_neg hb] at h
    exact absurd h (by simp)

/-! ### Claims -/

/-- C1: the executive filter retains exactly the records whose lowercased
title contains one of the fixed keywords as a substring; in particular
"Vice President of Engineering" is retained and "Software Engineer" is
excluded. -/
theorem exec_filter_keyword_substring :
    (∀ (l : List Person) (p : Person),
      p ∈ filter_senior_execs l ↔
        p ∈ l ∧ ∃ k ∈ senior_keywords, ∃ s t, (pyLower p.Title).data = s ++ k.data ++ t) ∧
    filter_senior_execs
        [⟨"Ada Lovelace", "Vice President of Engineering", "Acme"⟩,
         ⟨"Bob Burr", "Software Engineer", "Acme"⟩] =
      [⟨"Ada Lovelace", "Vice President of Engineering", "Acme"⟩] := by
  constructor
  · intro l p
    simp only [filter_senior_execs, List.mem_filter, is_senior, List.any_eq_true, pyContains,
      containsSub_iff]
  · decide

/-- C2 counterexample: the trimmed name "A\tB" contains whitespace (a tab),
so by the claim the record would be retained with FirstName "A" and
LastName "B"; the code splits only on the space character U+0020 and drops
the record.  The second record's ordinary space keeps column 1 of the pandas
split frame in existence, so the batch completes. -/
theorem name_split_whitespace_counterexample :
    (pyStrip "A\tB").data.any Char.isWhitespace = true ∧
    split_names [⟨"A\tB", "CEO", "Acme"⟩, ⟨"Jane Doe", "CEO", "Acme"⟩] =
      some [{ toPerson := ⟨"Jane Doe", "CEO", "Acme"⟩, FirstName := "Jane",
              LastName := "Doe" }] := by
  decide

/-- C2 (amended): the name splitter trims each name and splits it at the
first space character (U+0020): FirstName is everything before that space,
LastName the entire remainder after it, and a record whose trimmed name has
no space gets no LastName and is dropped — provided some record in the
batch does have a space; when none does (the empty batch included) the
stage raises a `KeyError` and the run crashes instead of dropping rows. -/
theorem name_split_first_space :
    (∀ l : List Person, split_names l = none ↔ ∀ p ∈ l, ' ' ∉ (pyStrip p.Name).data) ∧
    (∀ l : List Person, ¬ (∀ p ∈ l, ' ' ∉ (pyStrip p.Name).data) →
      split_names l = some (l.filterMap split_row)) ∧
    (∀ p : Person, ' ' ∉ (pyStrip p.Name).data → split_row p = none) ∧
    (∀ (p : Person) (f rest : List Char), ' ' ∉ f →
      (pyStrip p.Name).data = f ++ ' ' :: rest →
      split_row p =
        some { toPerson := p, FirstName := String.mk f, LastName := String.mk rest }) := by
  refine ⟨?_, ?_, ?_, ?_⟩
  · intro l
    rw [split_names]
    by_cases hb : (l.any fun p => (breakAtSpace (pyStrip p.Name).data).isSome) = true
    · rw [if_pos hb]
      constructor
      · intro hc; exact absurd hc (by simp)
      · intro hall; exact absurd ((split_any_eq_false l).mpr hall) (by simp [hb])
    · rw [if_neg hb]
      have hfalse : (l.any fun p => (breakAtSpace (pyStrip p.Name).data).isSome) = false := by
        cases hv : l.any fun p => (breakAtSpace (pyStrip p.Name).data).isSome
        · rfl
        · exact absurd hv hb
      exact ⟨fun _ => (split_any_eq_false l).mp hfalse, fun _ => rfl⟩
  · intro l hl
    rw [split_names, if_pos]
    cases hv : l.any fun p => (breakAtSpace (pyStrip p.Name).data).isSome
    · exact absurd ((split_any_eq_false l).mp hv) hl
    · rfl
  · intro p hp
    have hnone := (breakAtSpace_eq_none _).mpr hp
    simp [split_row, hnone]
  · intro p f rest hf heq
    have hb : breakAtSpace (pyStrip p.Name).data = some (f, rest) := by
      rw [heq]; exact breakAtSpace_split f rest hf
    simp [split_row, hb]

/-- C2 witness: a batch with one spaced and one spaceless name completes,
dropping the spaceless row; at the row level, "X" yields no split and
" Ann Bee Cee " is trimmed and split at its first space into "Ann" and
"Bee Cee". -/
theorem name_split_first_space_witness :
    split_names [(⟨"Ann Bee Cee", "t", "c"⟩ : Person), ⟨"X", "t", "c"⟩] =
      some [{ toPerson := ⟨"Ann Bee Cee", "t", "c"⟩, FirstName := "Ann",
              LastName := "Bee Cee" }] ∧
    split_row (⟨"X", "t", "c"⟩ : Person) = none ∧
    split_row (⟨" Ann Bee Cee ", "t", "c"⟩ : Person) =
      some { toPerson := ⟨" Ann Bee Cee ", "t", "c"⟩, FirstName := "Ann",
             LastName := "Bee Cee" } := by
  refine ⟨?_, ?_, ?_⟩
  · have h := name_split_first_space.2.1 [⟨"Ann Bee Cee", "t", "c"⟩, ⟨"X", "t", "c"⟩]
      (by decide)
    rw [h]; decide
  · exact name_split_first_space.2.2.1 ⟨"X", "t", "c"⟩ (by decide)
  · exact name_split_first_space.2.2.2 ⟨" Ann Bee Cee ", "t", "c"⟩
      "Ann".data "Bee Cee".data (by decide) (by decide)

/-- C3: domain inference deletes every character that is not a US-ASCII
letter, digit or space, lowercases, deletes the spaces and appends ".com";
the empty company yields ".com" and "AT&T" yields "att.com". -/
theorem infer_domain_transform :
    (∀ c : String, (infer_domain c).data =
      (((c.data.filter fun ch =>
            ('a' ≤ ch && ch ≤ 'z') || ('A' ≤ ch && ch ≤ 'Z') ||
            ('0' ≤ ch && ch ≤ '9') || ch == ' ').map Char.toLower).filter
          fun ch => ch != ' ') ++ ('.' :: 'c' :: 'o' :: 'm' :: [])) ∧
    infer_domain "" = ".com" ∧ infer_domain "AT&T" = "att.com" := by
  refine ⟨?_, by decide, by decide⟩
  intro c
  have hfil : (c.data.filter fun ch => ch.isAlphanum || ch == ' ') =
      c.data.filter fun ch =>
        ('a' ≤ ch && ch ≤ 'z') || ('A' ≤ ch && ch ≤ 'Z') ||
        ('0' ≤ ch && ch ≤ '9') || ch == ' ' :=
    List.filter_congr fun a _ => keep_char_eq a
  simp only [infer_domain, String.data_append, hfil]

/-- C4 counterexample: domain inference is not idempotent; on the empty
company it yields ".com", and applied again it yields "com.com". -/
theorem infer_domain_not_idempotent :
    infer_domain (infer_domain "") ≠ infer_domain "" := by
  decide

/-- C4 (amended): domain inference is deterministic — equal company strings
always yield equal domains. -/
theorem infer_domain_deterministic :
    ∀ c₁ c₂ : String, c₁ = c₂ → infer_domain c₁ = infer_domain c₂ :=
  fun _ _ h => congrArg infer_domain h

/-- C4 witness: determinism applied at the company "AT&T". -/
theorem infer_domain_deterministic_witness :
    infer_domain "AT&T" = infer_domain "AT&T" :=
  infer_domain_deterministic "AT&T" "AT&T" rfl

/-- Helper: both generated addresses are free of uppercase letters whenever
the record's domain came from the domain inferrer. -/
theorem gen_emails_row_no_upper (d : DomPerson) (c : String) (hc : d.Domain = infer_domain c) :
    hasUpper (gen_emails_row d).Email_1 = false ∧
    hasUpper (gen_emails_row d).Email_2 = false := by
  constructor
  · show hasUpper (pyLower d.FirstName ++ "." ++ pyLower d.LastName ++ "@" ++ d.Domain) = false
    simp [hasUpper_append, hasUpper_pyLower, hc, hasUpper_infer_domain,
      show hasUpper "." = false from rfl, show hasUpper "@" = false from rfl]
  · show hasUpper (pyLower d.FirstName ++ "@" ++ d.Domain) = false
    simp [hasUpper_append, hasUpper_pyLower, hc, hasUpper_infer_domain,
      show hasUpper "@" = false from rfl]

/-- C5: the email generator produces exactly
`lower(First) ++ "." ++ lower(Last) ++ "@" ++ Domain` and
`lower(First) ++ "@" ++ Domain`, and every record the pipeline produces
carries two addresses with no uppercase letter (the pipeline's domains all
come from the domain inferrer, which emits only lowercase). -/
theorem generate_emails_formats :
    (∀ d : DomPerson,
      (gen_emails_row d).Email_1 =
          pyLower d.FirstName ++ "." ++ pyLower d.LastName ++ "@" ++ d.Domain ∧
      (gen_emails_row d).Email_2 = pyLower d.FirstName ++ "@" ++ d.Domain) ∧
    (∀ (l : List Person) (recs : List EmailPerson) (e : EmailPerson),
      pipeline_records l = some recs → e ∈ recs →
      hasUpper e.Email_1 = false ∧ hasUpper e.Email_2 = false) := by
  refine ⟨fun d => ⟨rfl, rfl⟩, ?_⟩
  intro l recs e hrecs he
  rcases Option.map_eq_some'.mp hrecs with ⟨srows, _, rfl⟩
  rcases List.mem_map.mp he with ⟨d, hd, rfl⟩
  rcases List.mem_map.mp hd with ⟨ssp, _, rfl⟩
  exact gen_emails_row_no_upper _ ssp.Company rfl

/-- C5 witness: the two addresses of the single record produced from
"Jane Doe"/"Chief Marketing Officer"/"World Surf League" contain no
uppercase letter. -/
theorem generate_emails_formats_witness :
    hasUpper (⟨⟨⟨⟨"Jane Doe", "Chief Marketing Officer", "World Surf League"⟩, "Jane", "Doe"⟩,
        "worldsurfleague.com"⟩, "jane.doe@worldsurfleague.com",
        "jane@worldsurfleague.com"⟩ : EmailPerson).Email_1 = false ∧
    hasUpper (⟨⟨⟨⟨"Jane Doe", "Chief Marketing Officer", "World Surf League"⟩, "Jane", "Doe"⟩,
        "worldsurfleague.com"⟩, "jane.doe@worldsurfleague.com",
        "jane@worldsurfleague.com"⟩ : EmailPerson).Email_2 = false :=
  generate_emails_formats.2
    [⟨"Jane Doe", "Chief Marketing Officer", "World Surf League"⟩]
    [⟨⟨⟨⟨"Jane Doe", "Chief Marketing Officer", "World Surf League"⟩, "Jane", "Doe"⟩,
        "worldsurfleague.com"⟩, "jane.doe@worldsurfleague.com",
        "jane@worldsurfleague.com"⟩] _ (by decide) (by decide)

/-- C6 counterexample: on the readable, well-formed input with the single
row Name="Bob", Title="CEO", Company="X" the only surviving name has no
space, so the run dies in the name splitter with a `KeyError` and writes
nothing — there is no written output whose row count could equal
min(50, survivors). -/
theorem output_truncation_counterexample :
    run_pipeline [⟨"Bob", "CEO", "X"⟩] = none ∧
    main_run (some [("Name", [some "Bob"]), ("Title", [some "CEO"]),
        ("Company", [some "X"])]) = .error .SplitError := by
  decide

/-- C6 (amended): whenever the name splitter completes — some surviving row
has a space in its trimmed name — the run writes an output whose row count
is min of `MAX_EXECUTIVES` and the survivor count, keeping the first rows
of the projected survivor list in pipeline order with no sorting; when the
splitter crashes, the run produces no output at all. -/
theorem output_truncation (l : List Person) :
    (split_names (filter_senior_execs l) = none → run_pipeline l = none) ∧
    (∀ srows : List SplitPerson, split_names (filter_senior_execs l) = some srows →
      ∃ out, run_pipeline l = some out ∧
        out.length = min MAX_EXECUTIVES (generate_emails (add_domains srows)).length ∧
        (generate_emails (add_domains srows)).length = srows.length ∧
        ∀ i : Nat, i < out.length →
          out[i]? = ((generate_emails (add_domains srows)).map project_row)[i]?) := by
  constructor
  · intro h
    simp [run_pipeline, pipeline_records, h]
  · intro srows hs
    refine ⟨((generate_emails (add_domains srows)).map project_row).take MAX_EXECUTIVES,
      ?_, ?_, ?_, ?_⟩
    · simp [run_pipeline, pipeline_records, hs]
    · simp
    · simp [generate_emails, add_domains]
    · intro i hi
      have hlen : (((generate_emails (add_domains srows)).map project_row).take
          MAX_EXECUTIVES).length ≤ MAX_EXECUTIVES := by simp
      exact List.getElem?_take_of_lt (Nat.lt_of_lt_of_le hi hlen)

/-- C6 witness: the amended truncation at a one-row input that completes. -/
theorem output_truncation_witness :
    ∃ out, run_pipeline [(⟨"Jane Doe", "CEO", "Acme"⟩ : Person)] = some out ∧
      out.length = min MAX_EXECUTIVES (generate_emails (add_domains
          [{ toPerson := ⟨"Jane Doe", "CEO", "Acme"⟩, FirstName := "Jane",
             LastName := "Doe" }])).length ∧
      (generate_emails (add_domains
          [{ toPerson := ⟨"Jane Doe", "CEO", "Acme"⟩, FirstName := "Jane",
             LastName := "Doe" }])).length =
        ([{ toPerson := (⟨"Jane Doe", "CEO", "Acme"⟩ : Person), FirstName := "Jane",
            LastName := "Doe" }] : List SplitPerson).length ∧
      ∀ i : Nat, i < out.length →
        out[i]? = ((generate_emails (add_domains
          [{ toPerson := ⟨"Jane Doe", "CEO", "Acme"⟩, FirstName := "Jane",
             LastName := "Doe" }])).map project_row)[i]? :=
  (output_truncation [⟨"Jane Doe", "CEO", "Acme"⟩]).2
    [{ toPerson := ⟨"Jane Doe", "CEO", "Acme"⟩, FirstName := "Jane", LastName := "Doe" }]
    (by decide)

/-- C7: rows with a missing cell are invisible to the loader — deleting them
first changes nothing, every loaded record traces back to a fully present
raw row, and the whole pipeline output is likewise unchanged. -/
theorem loader_drops_incomplete_rows (raw : List RawRow) :
    load_data raw = load_data (raw.filter complete_row) ∧
    (∀ p, p ∈ load_data raw →
      ∃ rr ∈ raw, rr.name = some p.Name ∧ rr.title = some p.Title ∧
        rr.company = some p.Company) ∧
    run_pipeline (load_data raw) = run_pipeline (load_data (raw.filter complete_row)) := by
  have h1 : load_data raw = load_data (raw.filter complete_row) := by
    induction raw with
    | nil => rfl
    | cons rr rest ih =>
      rcases rr with ⟨n, t, c⟩
      rcases n with _ | n <;> rcases t with _ | t <;> rcases c with _ | c <;>
        simp_all [load_data, load_row, complete_row, List.filterMap_cons]
  refine ⟨h1, ?_, by rw [h1]⟩
  intro p hp
  rcases List.mem_filterMap.mp hp with ⟨rr, hrr, hmap⟩
  rcases (load_row_eq_some rr p).mp hmap with ⟨e1, e2, e3⟩
  exact ⟨rr, hrr, e1, e2, e3⟩

/-- C7 witness: a complete row survives and traces back to itself. -/
theorem loader_drops_incomplete_rows_witness :
    ∃ rr ∈ [(⟨some "Jane Doe", some "CEO", some "Acme"⟩ : RawRow)],
      rr.name = some "Jane Doe" ∧ rr.title = some "CEO" ∧ rr.company = some "Acme" :=
  (loader_drops_incomplete_rows [⟨some "Jane Doe", some "CEO", some "Acme"⟩]).2.1
    ⟨"Jane Doe", "CEO", "Acme"⟩ (by decide)

/-- C8 counterexample: the readable sheet with all three columns and the
single row Name="Prince", Title="founder", Company="Acme" fails anyway —
the lone surviving name has no space, so the splitter's `KeyError` kills
the run before the write, although neither the FileError condition
(unreadable file) nor the FormatError condition (absent column) holds. -/
theorem run_error_taxonomy_counterexample :
    (getCol [("Name", [some "Prince"]), ("Title", [some "founder"]),
        ("Company", [some "Acme"])] "Name").isSome = true ∧
    (getCol [("Name", [some "Prince"]), ("Title", [some "founder"]),
        ("Company", [some "Acme"])] "Title").isSome = true ∧
    (getCol [("Name", [some "Prince"]), ("Title", [some "founder"]),
        ("Company", [some "Acme"])] "Company").isSome = true ∧
    main_run (some [("Name", [some "Prince"]), ("Title", [some "founder"]),
        ("Company", [some "Acme"])]) = .error .SplitError := by
  decide

/-- C8 (amended): a run fails with `FileError` exactly when the file is
missing or unreadable, with `FormatError` exactly when the file is readable
but one of the columns Name/Title/Company is absent, and additionally with
the name splitter's unhandled `KeyError` exactly when the file and columns
are fine but no surviving stripped name contains a space; an output value
exists exactly when none of the three failures occurs — the output file is
written last, only on full success. -/
theorem run_error_taxonomy (input : Option (List (String × List (Option String)))) :
    (main_run input = .error .FileError ↔ input = none) ∧
    (main_run input = .error .FormatError ↔
      ∃ sheet, input = some sheet ∧
        (getCol sheet "Name" = none ∨ getCol sheet "Title" = none ∨
         getCol sheet "Company" = none)) ∧
    (main_run input = .error .SplitError ↔
      ∃ sheet, input = some sheet ∧ ∃ ns ts cs,
        getCol sheet "Name" = some ns ∧ getCol sheet "Title" = some ts ∧
        getCol sheet "Company" = some cs ∧
        split_names (filter_senior_execs (load_data (zipRows ns ts cs))) = none) ∧
    ((∃ out, main_run input = .ok out) ↔
      ∃ sheet, input = some sheet ∧ ∃ ns ts cs,
        getCol sheet "Name" = some ns ∧ getCol sheet "Title" = some ts ∧
        getCol sheet "Company" = some cs ∧
        ∃ srows, split_names (filter_senior_execs (load_data (zipRows ns ts cs)))
          = some srows) := by
  rcases input with _ | sheet
  · exact ⟨by simp [main_run], by simp [main_run], by simp [main_run], by simp [main_run]⟩
  · rcases hn : getCol sheet "Name" with _ | ns
    · simp_all [main_run]
    · rcases ht : getCol sheet "Title" with _ | ts
      · simp_all [main_run]
      · rcases hc : getCol sheet "Company" with _ | cs
        · simp_all [main_run]
        · rcases hs : split_names (filter_senior_execs (load_data (zipRows ns ts cs)))
            with _ | srows <;>
          simp_all [main_run, run_pipeline, pipeline_records]

/-- C9: every output row keeps the Title and Company of the loaded record it
came from — the intermediate stages only add fields, so Name, Title and
Company flow unchanged from the loader to the final projection. -/
theorem title_company_preserved (l : List Person) (out : List OutRow) (r : OutRow)
    (hout : run_pipeline l = some out) (hr : r ∈ out) :
    ∃ recs, pipeline_records l = some recs ∧ ∃ e ∈ recs, r = project_row e ∧
      ∃ p ∈ l, e.Name = p.Name ∧ e.Title = p.Title ∧ e.Company = p.Company ∧
        r.Title = p.Title ∧ r.Company = p.Company := by
  rcases Option.map_eq_some'.mp hout with ⟨recs, hrecs, rfl⟩
  refine ⟨recs, hrecs, ?_⟩
  have hr' : r ∈ recs.map project_row := List.mem_of_mem_take hr
  rcases List.mem_map.mp hr' with ⟨e, he, rfl⟩
  refine ⟨e, he, rfl, ?_⟩
  rcases Option.map_eq_some'.mp hrecs with ⟨srows, hs, rfl⟩
  rcases List.mem_map.mp he with ⟨d, hd, rfl⟩
  rcases List.mem_map.mp hd with ⟨sp, hsp, rfl⟩
  rw [split_names_sound hs] at hsp
  rcases List.mem_filterMap.mp hsp with ⟨p, hp, hrow⟩
  rcases Option.map_eq_some'.mp hrow with ⟨q, _, rfl⟩
  exact ⟨p, (List.mem_filter.mp hp).1, rfl, rfl, rfl, rfl, rfl⟩

/-- C9 witness: the preservation applied to the single output row of a
one-record pipeline. -/
theorem title_company_preserved_witness :
    ∃ recs, pipeline_records [(⟨"Jane Doe", "CEO", "Acme"⟩ : Person)] = some recs ∧
      ∃ e ∈ recs,
        (⟨"Jane", "Doe", "CEO", "Acme", "jane.doe@acme.com", "jane@acme.com"⟩ : OutRow) =
            project_row e ∧
        ∃ p ∈ [(⟨"Jane Doe", "CEO", "Acme"⟩ : Person)], e.Name = p.Name ∧ e.Title = p.Title ∧
          e.Company = p.Company ∧
          (⟨"Jane", "Doe", "CEO", "Acme", "jane.doe@acme.com", "jane@acme.com"⟩ : OutRow).Title
              = p.Title ∧
          (⟨"Jane", "Doe", "CEO", "Acme", "jane.doe@acme.com", "jane@acme.com"⟩ : OutRow).Company
              = p.Company :=
  title_company_preserved [⟨"Jane Doe", "CEO", "Acme"⟩]
    [⟨"Jane", "Doe", "CEO", "Acme", "jane.doe@acme.com", "jane@acme.com"⟩]
    ⟨"Jane", "Doe", "CEO", "Acme", "jane.doe@acme.com", "jane@acme.com"⟩
    (by decide) (by decide)

/-- C10: a surviving row whose name has three tokens yields an Email_1 that
contains a space — the generated candidates are not sanitized beyond
lowercasing. -/
theorem email_with_space_exists :
    run_pipeline [⟨"Ann Mary Lee", "CEO", "Acme"⟩] =
      some [⟨"Ann", "Mary Lee", "CEO", "Acme", "ann.mary lee@acme.com", "ann@acme.com"⟩] ∧
    ' ' ∈ "ann.mary lee@acme.com".data := by
  decide
